import Mathlib

/-!
Verification of the builder/director (food) example and the character-factory
example of this repository. The TypeScript classes are shallowly embedded:
products are structures of `Option String` fields (an unset TS field is
`none`), cooks are a tagged union over the two concrete builder variants,
and the director holds an index into its cook list so that mutation of the
active cook through a reference is modelled by updating the list in place.
Console output is ignored; randomness (`Math.random() > 0.5`) is passed in
as an explicit boolean; thrown errors become `Except.error` with the
source's message.
-/

namespace FoodBuilder

/-- Product `Pizza`: three string fields, created empty and populated
field-by-field by the builder. -/
structure Pizza where
  flour : Option String
  topping : Option String
  cheese : Option String
deriving DecidableEq, Repr

/-- `new Pizza()` — all fields unset. -/
def Pizza.new : Pizza := ⟨none, none, none⟩

/-- Product `Sandwich`. -/
structure Sandwich where
  bread : Option String
  filling : Option String
  cheese : Option String
deriving DecidableEq, Repr

/-- `new Sandwich()` — all fields unset. -/
def Sandwich.new : Sandwich := ⟨none, none, none⟩

/-- The `Cook` interface with its two concrete implementations
(`PizzaMaker`, `SandwichMaker`), as a tagged union: each carries its `name`
and its in-progress `result`. -/
inductive Cook where
  | pizzaMaker (name : String) (result : Pizza)
  | sandwichMaker (name : String) (result : Sandwich)
deriving DecidableEq, Repr

/-- Result of `getResult()`: `Sandwich | Pizza`. -/
inductive Product where
  | pizza (p : Pizza)
  | sandwich (s : Sandwich)
deriving DecidableEq, Repr

/-- `prepareBase(base)`: sets `flour` (pizza) or `bread` (sandwich). -/
def Cook.prepareBase : Cook → String → Cook
  | .pizzaMaker n r, base => .pizzaMaker n { r with flour := some base }
  | .sandwichMaker n r, base => .sandwichMaker n { r with bread := some base }

/-- `addMeat(meat)`: sets `topping` (pizza) or `filling` (sandwich). -/
def Cook.addMeat : Cook → String → Cook
  | .pizzaMaker n r, meat => .pizzaMaker n { r with topping := some meat }
  | .sandwichMaker n r, meat => .sandwichMaker n { r with filling := some meat }

/-- `addCheese(cheese)`: sets `cheese` on either product. -/
def Cook.addCheese : Cook → String → Cook
  | .pizzaMaker n r, cheese => .pizzaMaker n { r with cheese := some cheese }
  | .sandwichMaker n r, cheese => .sandwichMaker n { r with cheese := some cheese }

/-- `getResult()`: returns the accumulated product. -/
def Cook.getResult : Cook → Product
  | .pizzaMaker _ r => .pizza r
  | .sandwichMaker _ r => .sandwich r

/-- `startNew()`: replaces the in-progress product with a fresh empty one. -/
def Cook.startNew : Cook → Cook
  | .pizzaMaker n _ => .pizzaMaker n Pizza.new
  | .sandwichMaker n _ => .sandwichMaker n Sandwich.new

/-- The `Food` literal union `"pizza" | "sandwich"`. -/
inductive Food where
  | pizza
  | sandwich
deriving DecidableEq, Repr

/-- The `Order` record. -/
structure Order where
  food : Food
  base : String
  meat : String
  cheese : String
deriving DecidableEq, Repr

/-- `cook instanceof RequiredCookType` where the required type is
`PizzaMaker` for `"pizza"` and `SandwichMaker` otherwise. -/
def Cook.matchesFood : Cook → Food → Bool
  | .pizzaMaker _ _, .pizza => true
  | .sandwichMaker _ _, .sandwich => true
  | _, _ => false

/-- `new RequiredCookType(name)` — a fresh builder of the variant required
by the food kind. -/
def Cook.new : Food → String → Cook
  | .pizza, n => .pizzaMaker n Pizza.new
  | .sandwich, n => .sandwichMaker n Sandwich.new

/-- The builder's `name` field. -/
def Cook.cookName : Cook → String
  | .pizzaMaker n _ => n
  | .sandwichMaker n _ => n

/-- The food kind a cook's concrete variant builds. -/
def Cook.foodKind : Cook → Food
  | .pizzaMaker _ _ => .pizza
  | .sandwichMaker _ _ => .sandwich

/-- `Array.prototype.find` over the managed cooks, returning the position of
the first match (a position models the JS object reference returned by
`find`). -/
def findCookIdx (p : Cook → Bool) : List Cook → Option Nat
  | [] => none
  | c :: cs => if p c then some 0 else (findCookIdx p cs).map (· + 1)

/-- The `KitchenManager` director. `activeIdx` is the position in
`managedCooks` that `activeCook` references: in the source, `activeCook`
always aliases an element of the `managedCooks` array, so mutating the
active cook mutates that element. -/
structure KitchenManager where
  name : String
  managedCooks : List Cook
  activeIdx : Nat
deriving DecidableEq, Repr

/-- The `KitchenManager` constructor: throws on an empty cook collection,
otherwise stores the cooks and makes the first one active. -/
def KitchenManager.make (name : String) (cooks : List Cook) :
    Except String KitchenManager :=
  if cooks.length = 0 then .error "A kitchen manager must have cooks!"
  else .ok ⟨name, cooks, 0⟩

/-- The object `this.activeCook` currently references. -/
def KitchenManager.activeCook (km : KitchenManager) : Option Cook :=
  km.managedCooks[km.activeIdx]?

/-- `findSuitableCook(food)`: if the active cook is not of the required
variant, make the first managed cook of that variant active; if none exists,
construct a fresh one named `"George"`, push it, and make it active. -/
def KitchenManager.findSuitableCook (km : KitchenManager) (food : Food) :
    KitchenManager :=
  if km.activeCook.any (fun c => c.matchesFood food) then km
  else
    match findCookIdx (fun c => c.matchesFood food) km.managedCooks with
    | some i => { km with activeIdx := i }
    | none =>
      { km with
          managedCooks := km.managedCooks ++ [Cook.new food "George"],
          activeIdx := km.managedCooks.length }

/-- `fulfillOrder(order)`: select the suitable cook, reset it, run the three
build steps with the order's fields, and return the result. Returns the
updated manager (the mutated active cook is written back to its slot) and
the product; `none` can only arise from an out-of-range active index, which
never occurs in the source. -/
def KitchenManager.fulfillOrder (km : KitchenManager) (o : Order) :
    KitchenManager × Option Product :=
  let km1 := km.findSuitableCook o.food
  match km1.activeCook with
  | none => (km1, none)
  | some c =>
    let c1 := (((c.startNew).prepareBase o.base).addMeat o.meat).addCheese o.cheese
    ({ km1 with managedCooks := km1.managedCooks.set km1.activeIdx c1 },
     some c1.getResult)

/-- Repeated `fulfillOrder` calls, threading the manager state. -/
def KitchenManager.fulfillOrders (km : KitchenManager) (os : List Order) :
    KitchenManager :=
  os.foldl (fun k o => (k.fulfillOrder o).1) km

/-- One of the three build-step calls of the `Cook` interface, with its
string argument. -/
inductive BuildStep where
  | prepareBase (v : String)
  | addMeat (v : String)
  | addCheese (v : String)
deriving DecidableEq, Repr

/-- Dispatch one build-step call to the cook. -/
def Cook.applyStep : Cook → BuildStep → Cook
  | c, .prepareBase v => c.prepareBase v
  | c, .addMeat v => c.addMeat v
  | c, .addCheese v => c.addCheese v

/-- A sequence of build-step calls on a cook, in order. -/
def Cook.applySteps (c : Cook) (steps : List BuildStep) : Cook :=
  steps.foldl Cook.applyStep c

end FoodBuilder

namespace CharacterFactory

/-- The fields the abstract `Character` constructor sets: `identifier` is
the formatted string built from the other fields. -/
structure CharacterBase where
  name : String
  role : String
  level : Nat
  type : String
  identifier : String
deriving DecidableEq, Repr

/-- The abstract `Character` constructor body (argument order as in the
source: name, role, type, level). -/
def CharacterBase.make (name role type : String) (level : Nat) :
    CharacterBase :=
  ⟨name, role, level, type,
    name ++ " [Lvl " ++ toString level ++ " " ++ type ++ " " ++ role ++ "]"⟩

/-- The two concrete `Character` subclasses as a tagged union: a `Mage`
additionally carries `usesScepter`, a `Warrior` additionally carries its
`weapon`. -/
inductive Character where
  | mage (base : CharacterBase) (usesScepter : Bool)
  | warrior (base : CharacterBase) (weapon : String)
deriving DecidableEq, Repr

/-- The `Mage` constructor: passes role `"Mage"` to the base constructor. -/
def Mage.new (name : String) (level : Nat) (type : String)
    (usesScepter : Bool) : Character :=
  .mage (CharacterBase.make name "Mage" type level) usesScepter

/-- The `Warrior` constructor: passes role `"Warrior"` to the base
constructor. -/
def Warrior.new (name : String) (level : Nat) (type : String)
    (weapon : String) : Character :=
  .warrior (CharacterBase.make name "Warrior" type level) weapon

/-- `Object.keys(CharacterFactory.mageWeaponsMap)`. -/
def mageWeaponKeys : List String := ["Hands", "Scepter"]

/-- `Object.keys(CharacterFactory.warriorWeaponsMap)`. -/
def warriorWeaponKeys : List String := ["Hands", "Axe", "Sword", "Hammer"]

/-- `getRandomType(role)` with the outcome of `Math.random() > 0.5` made an
explicit argument. -/
def getRandomType (role : String) (isOverHalf : Bool) : String :=
  if role = "Mage" then
    if isOverHalf then "Fire" else "Ice"
  else
    if isOverHalf then "Barbarian" else "Paladin"

/-- `createNewCharacter(name, weapon)`: mage-set membership is checked
first, then warrior-set membership; otherwise the unsupported-weapon error
is thrown. The weapon is a plain string (the TS literal-union annotation is
erased at runtime). -/
def createNewCharacter (name weapon : String) (isOverHalf : Bool) :
    Except String Character :=
  if mageWeaponKeys.contains weapon then
    .ok (Mage.new name 1 (getRandomType "Mage" isOverHalf) true)
  else if warriorWeaponKeys.contains weapon then
    .ok (Warrior.new name 1 (getRandomType "Warrior" isOverHalf) "Sword")
  else
    .error "This weapon is not available for standard characters!"

end CharacterFactory

/-! ## Helper lemmas -/

namespace FoodBuilder

theorem findCookIdx_get (p : Cook → Bool) :
    ∀ (l : List Cook) (i : Nat), findCookIdx p l = some i →
      l[i]? = l.find? p := by
  intro l
  induction l with
  | nil => intro i h; simp [findCookIdx] at h
  | cons c cs ih =>
    intro i h
    by_cases hc : p c
    · simp [findCookIdx, hc] at h
      subst h
      simp [List.find?, hc]
    · simp only [findCookIdx, hc, if_false, Option.map_eq_some', Bool.false_eq_true] at h
      obtain ⟨j, hj, rfl⟩ := h
      simpa [List.find?, hc] using ih j hj

theorem findCookIdx_eq_none_iff (p : Cook → Bool) :
    ∀ l : List Cook, findCookIdx p l = none ↔ l.find? p = none := by
  intro l
  induction l with
  | nil => simp [findCookIdx]
  | cons c cs ih =>
    by_cases hc : p c
    · simp [findCookIdx, hc, List.find?]
    · simp [findCookIdx, hc, List.find?, ih]

theorem findSuitableCook_active_matches (km : KitchenManager) (food : Food) :
    ∃ c, (km.findSuitableCook food).activeCook = some c
      ∧ c.matchesFood food = true := by
  unfold KitchenManager.findSuitableCook
  by_cases h : km.activeCook.any (fun c => c.matchesFood food) = true
  · rw [if_pos h]
    match hc : km.activeCook with
    | none => rw [hc] at h; simp [Option.any] at h
    | some c =>
      rw [hc] at h
      simp only [Option.any_some] at h
      exact ⟨c, rfl, h⟩
  · rw [if_neg h]
    match hidx : findCookIdx (fun c => c.matchesFood food) km.managedCooks with
    | some i =>
      have hget := findCookIdx_get _ _ _ hidx
      match hfind : km.managedCooks.find? (fun c => c.matchesFood food) with
      | none =>
        rw [(findCookIdx_eq_none_iff _ _).mpr hfind] at hidx
        exact absurd hidx (by simp)
      | some c =>
        refine ⟨c, ?_, ?_⟩
        · simpa [KitchenManager.activeCook, hfind] using hget
        · simpa using List.find?_some hfind
    | none =>
      refine ⟨Cook.new food "George", ?_, ?_⟩
      · simp [KitchenManager.activeCook, List.getElem?_concat_length]
      · cases food <;> rfl

end FoodBuilder

namespace FoodBuilder

theorem fulfillOrder_fst_activeIdx_lt (km : KitchenManager) (o : Order) :
    ((km.fulfillOrder o).1).activeIdx
      < ((km.fulfillOrder o).1).managedCooks.length := by
  obtain ⟨c, hac, _⟩ := findSuitableCook_active_matches km o.food
  have hlt : (km.findSuitableCook o.food).activeIdx
      < (km.findSuitableCook o.food).managedCooks.length := by
    rcases List.getElem?_eq_some.mp hac with ⟨h, _⟩
    exact h
  simp only [KitchenManager.fulfillOrder, hac]
  simpa [List.length_set] using hlt

theorem fulfillOrders_activeIdx_lt (os : List Order) :
    ∀ km : KitchenManager,
      km.activeIdx < km.managedCooks.length →
      (km.fulfillOrders os).activeIdx
        < (km.fulfillOrders os).managedCooks.length := by
  induction os with
  | nil => intro km h; exact h
  | cons o os ih => intro km _; exact ih _ (fulfillOrder_fst_activeIdx_lt km o)

end FoodBuilder

/-! ## Claim theorems -/

namespace FoodBuilder

/-- C1: for every order whose food is `"pizza"`, `fulfillOrder` returns a
`Pizza` whose `flour`, `topping` and `cheese` fields equal the order's
`base`, `meat` and `cheese` values; for every order whose food is
`"sandwich"`, it returns a `Sandwich` whose `bread`, `filling` and `cheese`
fields equal those values — for every prior manager state, whatever the
active builder and the builders' in-progress products were. -/
theorem fulfillOrder_product_shape (km : KitchenManager)
    (base meat cheese : String) :
    (km.fulfillOrder ⟨Food.pizza, base, meat, cheese⟩).2
      = some (Product.pizza ⟨some base, some meat, some cheese⟩)
    ∧ (km.fulfillOrder ⟨Food.sandwich, base, meat, cheese⟩).2
      = some (Product.sandwich ⟨some base, some meat, some cheese⟩) := by
  constructor
  · obtain ⟨c, hac, hm⟩ := findSuitableCook_active_matches km Food.pizza
    cases c with
    | sandwichMaker n r => simp [Cook.matchesFood] at hm
    | pizzaMaker n r =>
      simp [KitchenManager.fulfillOrder, hac, Cook.startNew, Cook.prepareBase,
        Cook.addMeat, Cook.addCheese, Cook.getResult, Pizza.new]
  · obtain ⟨c, hac, hm⟩ := findSuitableCook_active_matches km Food.sandwich
    cases c with
    | pizzaMaker n r => simp [Cook.matchesFood] at hm
    | sandwichMaker n r =>
      simp [KitchenManager.fulfillOrder, hac, Cook.startNew, Cook.prepareBase,
        Cook.addMeat, Cook.addCheese, Cook.getResult, Sandwich.new]

/-- C2: on either builder variant, in any prior builder state, calling
`prepareBase`, `addMeat` and `addCheese` with three arbitrary string values
and then `getResult` yields a product whose three fields are exactly those
values in order — any string is accepted and stored verbatim. -/
theorem build_steps_store_values_verbatim (n : String) (r : Pizza)
    (s : Sandwich) (b m ch : String) :
    ((((Cook.pizzaMaker n r).prepareBase b).addMeat m).addCheese ch).getResult
      = Product.pizza ⟨some b, some m, some ch⟩
    ∧ ((((Cook.sandwichMaker n s).prepareBase b).addMeat m).addCheese ch).getResult
      = Product.sandwich ⟨some b, some m, some ch⟩ :=
  ⟨rfl, rfl⟩

/-- C3: the `KitchenManager` constructor fails on an empty cook collection
with the source's error message; on any non-empty collection it succeeds
and the first cook of the collection is the initially active cook. -/
theorem make_requires_cooks (name : String) (c : Cook) (cs : List Cook) :
    KitchenManager.make name []
      = .error "A kitchen manager must have cooks!"
    ∧ ∃ km, KitchenManager.make name (c :: cs) = .ok km
        ∧ km.managedCooks = c :: cs ∧ km.activeCook = some c :=
  ⟨rfl, ⟨name, c :: cs, 0⟩, rfl, rfl, by simp [KitchenManager.activeCook]⟩

/-- C9: `startNew` leaves the builder exactly as a freshly constructed one
of the same variant and name: an immediate `getResult` yields a product
with all fields unset, and the product after any subsequent sequence of
build steps equals the one built from a fresh builder — no residual fields
from the prior product survive. -/
theorem startNew_discards_residual_state (c : Cook) :
    c.startNew = Cook.new c.foodKind c.cookName
    ∧ ((c.startNew).getResult = Product.pizza Pizza.new
        ∨ (c.startNew).getResult = Product.sandwich Sandwich.new)
    ∧ ∀ steps : List BuildStep,
        ((c.startNew).applySteps steps).getResult
          = ((Cook.new c.foodKind c.cookName).applySteps steps).getResult := by
  cases c with
  | pizzaMaker n r => exact ⟨rfl, Or.inl rfl, fun _ => rfl⟩
  | sandwichMaker n r => exact ⟨rfl, Or.inr rfl, fun _ => rfl⟩

end FoodBuilder

namespace FoodBuilder

/-- C4: in any manager state whose active reference resolves to a cook `a`
(every reachable state does), `findSuitableCook food` behaves as: if `a`
already is of the required variant, nothing changes; otherwise, if the
managed collection contains a cook of the required variant, the first such
cook in collection order becomes active and the collection (and the
manager's name) is unchanged; otherwise a fresh cook of the required
variant named `"George"` is appended to the collection and made active. -/
theorem findSuitableCook_spec (km : KitchenManager) (food : Food) (a : Cook)
    (ha : km.activeCook = some a) :
    (a.matchesFood food = true → km.findSuitableCook food = km)
    ∧ (a.matchesFood food = false →
        ∀ c, km.managedCooks.find? (fun k => k.matchesFood food) = some c →
          (km.findSuitableCook food).activeCook = some c
          ∧ (km.findSuitableCook food).managedCooks = km.managedCooks
          ∧ (km.findSuitableCook food).name = km.name)
    ∧ (a.matchesFood food = false →
        km.managedCooks.find? (fun k => k.matchesFood food) = none →
          (km.findSuitableCook food).managedCooks
            = km.managedCooks ++ [Cook.new food "George"]
          ∧ (km.findSuitableCook food).activeCook
            = some (Cook.new food "George")
          ∧ (km.findSuitableCook food).name = km.name) := by
  have hany : km.activeCook.any (fun c => c.matchesFood food)
      = a.matchesFood food := by
    rw [ha, Option.any_some]
  refine ⟨?_, ?_, ?_⟩
  · intro hm
    unfold KitchenManager.findSuitableCook
    rw [if_pos (hany.trans hm)]
  · intro hm c hfind
    have hne : findCookIdx (fun k => k.matchesFood food) km.managedCooks ≠ none := by
      intro h0
      rw [(findCookIdx_eq_none_iff _ _).mp h0] at hfind
      exact Option.noConfusion hfind
    obtain ⟨i, hidx⟩ := Option.ne_none_iff_exists'.mp hne
    have hget := findCookIdx_get _ _ _ hidx
    unfold KitchenManager.findSuitableCook
    rw [if_neg (by rw [hany, hm]; exact Bool.false_ne_true), hidx]
    refine ⟨?_, rfl, rfl⟩
    simpa [KitchenManager.activeCook, hfind] using hget
  · intro hm hfind
    have h0 : findCookIdx (fun k => k.matchesFood food) km.managedCooks = none :=
      (findCookIdx_eq_none_iff _ _).mpr hfind
    unfold KitchenManager.findSuitableCook
    rw [if_neg (by rw [hany, hm]; exact Bool.false_ne_true), h0]
    refine ⟨rfl, ?_, rfl⟩
    simp [KitchenManager.activeCook, List.getElem?_concat_length]

/-- Witness for C4 at a concrete input: a manager whose only cook is a
pizza maker receives a sandwich request, so a fresh `SandwichMaker` named
`"George"` is appended and made active. -/
theorem findSuitableCook_spec_witness :
    (KitchenManager.findSuitableCook
        ⟨"Melissa", [Cook.pizzaMaker "Anna" Pizza.new], 0⟩
        Food.sandwich).managedCooks
      = [Cook.pizzaMaker "Anna" Pizza.new] ++ [Cook.new Food.sandwich "George"]
    ∧ (KitchenManager.findSuitableCook
        ⟨"Melissa", [Cook.pizzaMaker "Anna" Pizza.new], 0⟩
        Food.sandwich).activeCook
      = some (Cook.new Food.sandwich "George")
    ∧ (KitchenManager.findSuitableCook
        ⟨"Melissa", [Cook.pizzaMaker "Anna" Pizza.new], 0⟩
        Food.sandwich).name = "Melissa" :=
  (findSuitableCook_spec ⟨"Melissa", [Cook.pizzaMaker "Anna" Pizza.new], 0⟩
      Food.sandwich (Cook.pizzaMaker "Anna" Pizza.new)
      (by simp [KitchenManager.activeCook])).2.2 rfl rfl

/-- C10: from any successful construction, after any sequence of
`fulfillOrder` calls the managed cook collection is non-empty and the
active cook reference resolves to an element of that collection. -/
theorem reachable_manager_invariant (name : String) (cooks : List Cook)
    (km : KitchenManager) (h : KitchenManager.make name cooks = .ok km)
    (os : List Order) :
    (km.fulfillOrders os).managedCooks ≠ []
    ∧ ∃ a, (km.fulfillOrders os).activeCook = some a
        ∧ a ∈ (km.fulfillOrders os).managedCooks := by
  have hv : km.activeIdx < km.managedCooks.length := by
    unfold KitchenManager.make at h
    by_cases hl : cooks.length = 0
    · rw [if_pos hl] at h; exact Except.noConfusion h
    · rw [if_neg hl] at h
      cases h
      simpa using Nat.pos_of_ne_zero hl
  have hvo := fulfillOrders_activeIdx_lt os km hv
  have hsome : (km.fulfillOrders os).activeCook
      = some ((km.fulfillOrders os).managedCooks[(km.fulfillOrders os).activeIdx]) := by
    simp [KitchenManager.activeCook, List.getElem?_eq_getElem hvo]
  refine ⟨?_, _, hsome, List.getElem_mem hvo⟩
  intro hnil
  rw [hnil] at hvo
  simp at hvo

/-- Witness for C10 at a concrete input: a manager built from one pizza
maker, after fulfilling one sandwich order. -/
theorem reachable_manager_invariant_witness :
    (KitchenManager.fulfillOrders
        ⟨"Melissa", [Cook.pizzaMaker "Anna" Pizza.new], 0⟩
        [⟨Food.sandwich, "whole grain", "pastrami", "cheddar"⟩]).managedCooks ≠ []
    ∧ ∃ a, (KitchenManager.fulfillOrders
          ⟨"Melissa", [Cook.pizzaMaker "Anna" Pizza.new], 0⟩
          [⟨Food.sandwich, "whole grain", "pastrami", "cheddar"⟩]).activeCook = some a
        ∧ a ∈ (KitchenManager.fulfillOrders
            ⟨"Melissa", [Cook.pizzaMaker "Anna" Pizza.new], 0⟩
            [⟨Food.sandwich, "whole grain", "pastrami", "cheddar"⟩]).managedCooks :=
  reachable_manager_invariant "Melissa" [Cook.pizzaMaker "Anna" Pizza.new]
    ⟨"Melissa", [Cook.pizzaMaker "Anna" Pizza.new], 0⟩ rfl
    [⟨Food.sandwich, "whole grain", "pastrami", "cheddar"⟩]

end FoodBuilder

namespace CharacterFactory

/-- C5: for every name and either random outcome, requesting any of the
warrior-only weapons `"Hammer"`, `"Axe"`, `"Sword"` yields a `Warrior` at
level 1 whose `weapon` field is fixed to `"Sword"` (not the requested
weapon) and whose sub-type is `"Barbarian"` or `"Paladin"`. -/
theorem warrior_weapons_fixed_sword (name : String) (isOverHalf : Bool) :
    ∃ t, (t = "Barbarian" ∨ t = "Paladin")
      ∧ createNewCharacter name "Hammer" isOverHalf
          = .ok (Warrior.new name 1 t "Sword")
      ∧ createNewCharacter name "Axe" isOverHalf
          = .ok (Warrior.new name 1 t "Sword")
      ∧ createNewCharacter name "Sword" isOverHalf
          = .ok (Warrior.new name 1 t "Sword") := by
  cases isOverHalf with
  | false => exact ⟨"Paladin", Or.inr rfl, rfl, rfl, rfl⟩
  | true => exact ⟨"Barbarian", Or.inl rfl, rfl, rfl, rfl⟩

/-- C6: for every name and either random outcome, requesting `"Scepter"`
yields a `Mage` at level 1 with `usesScepter = true` and sub-type `"Fire"`
or `"Ice"`. -/
theorem scepter_makes_mage (name : String) (isOverHalf : Bool) :
    ∃ t, (t = "Fire" ∨ t = "Ice")
      ∧ createNewCharacter name "Scepter" isOverHalf
          = .ok (Mage.new name 1 t true) := by
  cases isOverHalf with
  | false => exact ⟨"Ice", Or.inr rfl, rfl⟩
  | true => exact ⟨"Fire", Or.inl rfl, rfl⟩

/-- C7: requesting `"Hands"` — a weapon in both the mage and the warrior
sets — always yields a `Mage`, never a `Warrior`, because the mage-set
membership check is evaluated first. -/
theorem hands_resolves_to_mage (name : String) (isOverHalf : Bool) :
    ∃ t, (t = "Fire" ∨ t = "Ice")
      ∧ createNewCharacter name "Hands" isOverHalf
          = .ok (Mage.new name 1 t true) := by
  cases isOverHalf with
  | false => exact ⟨"Ice", Or.inr rfl, rfl⟩
  | true => exact ⟨"Fire", Or.inl rfl, rfl⟩

/-- C8: for every name, either random outcome, and every weapon string in
neither the mage-compatible set nor the warrior-compatible set,
`createNewCharacter` fails with the unsupported-weapon error and constructs
no character. -/
theorem unknown_weapon_fails (name weapon : String) (isOverHalf : Bool)
    (h1 : weapon ∉ mageWeaponKeys) (h2 : weapon ∉ warriorWeaponKeys) :
    createNewCharacter name weapon isOverHalf
      = .error "This weapon is not available for standard characters!" := by
  simp [createNewCharacter, h1, h2]

/-- Witness for C8 at the concrete weapon `"Unknown"`, which is in neither
weapon set. -/
theorem unknown_weapon_fails_witness :
    createNewCharacter "John" "Unknown" true
      = .error "This weapon is not available for standard characters!" :=
  unknown_weapon_fails "John" "Unknown" true (by decide) (by decide)

end CharacterFactory
